import Mathlib

/-!
Verification development for the Young-diagram growth simulator
(backend: diagrams2d / diagrams3d / common).

The Python core is shallowly embedded:
* a diagram state is its finite set of cells (`Finset Cell2` / `Finset Cell3`);
  the cached `_boundary_cells` field is always recomputed from `cells` right
  after every mutation, so it is modelled as the derived function `boundary`;
* the entropy source (`random.choices`, which always returns an element of the
  candidate list) is an abstract `pick` function, with the hypothesis that the
  picked element belongs to the candidate set when that set is nonempty;
* Python `raise` is `Except.error`; the accumulated frequency dictionary
  (`defaultdict(int)`) is a function `Cell → ℕ` that is zero off its keys.
-/

/-- A 2D cell: an integer lattice point of ℕ², as in `diagrams2d`. -/
abbrev Cell2 : Type := ℕ × ℕ

/-- A 3D cell: an integer lattice point of ℕ³, as in `diagrams3d`. -/
abbrev Cell3 : Type := ℕ × ℕ × ℕ

namespace Diagram2D

/-- `Diagram2D._calculate_boundary_cells`: cells missing a right or an upper
neighbour.  The Python class caches this set in `_boundary_cells` and recomputes
it from `cells` after every mutation, so here it is a pure function of the cell
set. -/
def boundary (S : Finset Cell2) : Finset Cell2 :=
  S.filter (fun c => (c.1 + 1, c.2) ∉ S ∨ (c.1, c.2 + 1) ∉ S)

/-- The membership test applied by `Diagram2D.get_addable_cells` to each
forward neighbour of a boundary cell: it is not yet in the diagram, it has
support below (`ny == 0 or (nx, ny - 1) in self.cells`) and a left neighbour
(`nx == 0 or (nx - 1, ny) in self.cells`). -/
def addableCond (S : Finset Cell2) (c : Cell2) : Prop :=
  c ∉ S ∧ (c.2 = 0 ∨ (c.1, c.2 - 1) ∈ S) ∧ (c.1 = 0 ∨ (c.1 - 1, c.2) ∈ S)

instance (S : Finset Cell2) (c : Cell2) : Decidable (addableCond S c) := by
  unfold addableCond; infer_instance

/-- `Diagram2D.get_addable_cells`: scan the forward neighbours
`(x+1, y), (x, y+1)` of every boundary cell and keep those passing
`addableCond`. -/
def get_addable_cells (S : Finset Cell2) : Finset Cell2 :=
  (boundary S).biUnion (fun b =>
    ({(b.1 + 1, b.2), (b.1, b.2 + 1)} : Finset Cell2).filter (addableCond S))

/-- The definitional addable set from the specification: `c` is addable iff
`c ∉ cells` and on every axis the coordinate is 0 or the backward neighbour is
in `cells`.  (For ℕ-coordinates "c − e_i ∈ cells" is the guarded predecessor
test, exactly as in the code.) -/
def addableSpec (S : Finset Cell2) (c : Cell2) : Prop :=
  c ∉ S ∧ (c.1 = 0 ∨ (c.1 - 1, c.2) ∈ S) ∧ (c.2 = 0 ∨ (c.1, c.2 - 1) ∈ S)

instance (S : Finset Cell2) (c : Cell2) : Decidable (addableSpec S c) := by
  unfold addableSpec; infer_instance

/-- `Diagram2D.add_cell`: insert the cell (the cached boundary is recomputed,
which the `boundary` function models). -/
def add_cell (S : Finset Cell2) (c : Cell2) : Finset Cell2 := insert c S

/-- The order-ideal invariant of the spec: downward closure in ℕ². -/
def DownClosed (S : Finset Cell2) : Prop :=
  ∀ c ∈ S, ∀ c' : Cell2, c'.1 ≤ c.1 → c'.2 ≤ c.2 → c' ∈ S

/-- Decidable characterization of downward closure: every cell has its two
backward neighbours (when they exist) in the set. -/
def DownClosedDec (S : Finset Cell2) : Prop :=
  ∀ c ∈ S, (c.1 = 0 ∨ (c.1 - 1, c.2) ∈ S) ∧ (c.2 = 0 ∨ (c.1, c.2 - 1) ∈ S)

instance (S : Finset Cell2) : Decidable (DownClosedDec S) := by
  unfold DownClosedDec; infer_instance

end Diagram2D

namespace Diagram3D

/-- `Diagram3D._calculate_boundary_cells`: cells missing a neighbour in one of
the three positive directions. -/
def boundary (S : Finset Cell3) : Finset Cell3 :=
  S.filter (fun c =>
    (c.1 + 1, c.2.1, c.2.2) ∉ S ∨ (c.1, c.2.1 + 1, c.2.2) ∉ S ∨ (c.1, c.2.1, c.2.2 + 1) ∉ S)

/-- The membership test applied by `Diagram3D.get_addable_cells` to each
forward neighbour of a boundary cell (support below, left neighbour and back
neighbour, each guarded by a zero test). -/
def addableCond (S : Finset Cell3) (c : Cell3) : Prop :=
  c ∉ S ∧ (c.2.1 = 0 ∨ (c.1, c.2.1 - 1, c.2.2) ∈ S) ∧
    (c.1 = 0 ∨ (c.1 - 1, c.2.1, c.2.2) ∈ S) ∧ (c.2.2 = 0 ∨ (c.1, c.2.1, c.2.2 - 1) ∈ S)

instance (S : Finset Cell3) (c : Cell3) : Decidable (addableCond S c) := by
  unfold addableCond; infer_instance

/-- `Diagram3D.get_addable_cells`: scan the three forward neighbours of every
boundary cell and keep those passing `addableCond`. -/
def get_addable_cells (S : Finset Cell3) : Finset Cell3 :=
  (boundary S).biUnion (fun b =>
    ({(b.1 + 1, b.2.1, b.2.2), (b.1, b.2.1 + 1, b.2.2), (b.1, b.2.1, b.2.2 + 1)} :
      Finset Cell3).filter (addableCond S))

/-- The definitional addable set from the specification, for ℕ³. -/
def addableSpec (S : Finset Cell3) (c : Cell3) : Prop :=
  c ∉ S ∧ (c.1 = 0 ∨ (c.1 - 1, c.2.1, c.2.2) ∈ S) ∧
    (c.2.1 = 0 ∨ (c.1, c.2.1 - 1, c.2.2) ∈ S) ∧ (c.2.2 = 0 ∨ (c.1, c.2.1, c.2.2 - 1) ∈ S)

instance (S : Finset Cell3) (c : Cell3) : Decidable (addableSpec S c) := by
  unfold addableSpec; infer_instance

/-- `Diagram3D.add_cell`. -/
def add_cell (S : Finset Cell3) (c : Cell3) : Finset Cell3 := insert c S

/-- The order-ideal invariant: downward closure in ℕ³. -/
def DownClosed (S : Finset Cell3) : Prop :=
  ∀ c ∈ S, ∀ c' : Cell3, c'.1 ≤ c.1 → c'.2.1 ≤ c.2.1 → c'.2.2 ≤ c.2.2 → c' ∈ S

/-- Decidable characterization via backward neighbours. -/
def DownClosedDec (S : Finset Cell3) : Prop :=
  ∀ c ∈ S, (c.1 = 0 ∨ (c.1 - 1, c.2.1, c.2.2) ∈ S) ∧
    (c.2.1 = 0 ∨ (c.1, c.2.1 - 1, c.2.2) ∈ S) ∧ (c.2.2 = 0 ∨ (c.1, c.2.1, c.2.2 - 1) ∈ S)

instance (S : Finset Cell3) : Decidable (DownClosedDec S) := by
  unfold DownClosedDec; infer_instance

end Diagram3D

/-- `ValueError` message for non-positive `n_steps`. -/
def msgSteps : String := "n_steps must be a positive number"

/-- `ValueError` message for non-positive `runs`. -/
def msgRuns : String := "runs must be a positive number"

/-- `ValueError` message for non-positive `alpha`. -/
def msgAlpha : String := "alpha must be a positive number"

/-- `ValueError` message of the 2D growth loop when no cell can be added. -/
def msgNoAddable : String := "no addable cells: the diagram reached its growth limit"

namespace Diagram2D

/-- The growth loop of `Diagram2D.simulate`: at each step compute the addable
set; if empty, raise `ValueError`; otherwise draw one candidate through the
entropy source (`pick`, indexed by the step number) and `add_cell` it.
`alpha` only shapes the sampling probabilities, which the abstract `pick`
subsumes; the candidate list, and hence the reachable states, do not depend on
it. -/
def simLoop (pick : ℕ → Finset Cell2 → Cell2) :
    ℕ → ℕ → Finset Cell2 → Except String (Finset Cell2)
  | _, 0, S => .ok S
  | i, k + 1, S =>
    if get_addable_cells S = ∅ then .error msgNoAddable
    else simLoop pick (i + 1) k (add_cell S (pick i (get_addable_cells S)))

/-- `Diagram2D.simulate`: validate `n_steps > 0` (and nothing else: the 2D
engine does not validate `alpha`), then run the growth loop. -/
def simulate (S : Finset Cell2) (n_steps : ℤ) (alpha : ℚ)
    (pick : ℕ → Finset Cell2 → Cell2) : Except String (Finset Cell2) :=
  if n_steps ≤ 0 then .error msgSteps
  else simLoop pick 0 n_steps.toNat S

/-- A valid entropy source: `random.choices` always returns an element of the
candidate list. -/
def ValidPick (pick : ℕ → Finset Cell2 → Cell2) : Prop :=
  ∀ i A, A.Nonempty → pick i A ∈ A

end Diagram2D

namespace Diagram3D

/-- The growth loop of `Diagram3D.simulate`: when the addable set is empty the
3D engine logs a warning and `break`s, returning the state grown so far. -/
def simLoop (pick : ℕ → Finset Cell3 → Cell3) :
    ℕ → ℕ → Finset Cell3 → Finset Cell3
  | _, 0, S => S
  | i, k + 1, S =>
    if get_addable_cells S = ∅ then S
    else simLoop pick (i + 1) k (add_cell S (pick i (get_addable_cells S)))

/-- `Diagram3D.simulate`: validate `n_steps > 0` and `alpha > 0`, then run the
growth loop; exhaustion is not an error in 3D. -/
def simulate (S : Finset Cell3) (n_steps : ℤ) (alpha : ℚ)
    (pick : ℕ → Finset Cell3 → Cell3) : Except String (Finset Cell3) :=
  if n_steps ≤ 0 then .error msgSteps
  else if alpha ≤ 0 then .error msgAlpha
  else .ok (simLoop pick 0 n_steps.toNat S)

/-- A valid entropy source over 3D candidate sets. -/
def ValidPick (pick : ℕ → Finset Cell3 → Cell3) : Prop :=
  ∀ i A, A.Nonempty → pick i A ∈ A

end Diagram3D

namespace Diagram2D

/-- `Diagram2D.__init__`: `initial_cells if initial_cells else {(0, 0)}` — both
`None` and the (falsy) empty set fall back to the origin singleton. -/
def init (initial_cells : Option (Finset Cell2)) : Finset Cell2 :=
  match initial_cells with
  | none => {(0, 0)}
  | some s => if s = ∅ then {(0, 0)} else s

end Diagram2D

namespace Diagram3D

/-- `Diagram3D.__init__`, with the same falsy-default behaviour. -/
def init (initial_cells : Option (Finset Cell3)) : Finset Cell3 :=
  match initial_cells with
  | none => {(0, 0, 0)}
  | some s => if s = ∅ then {(0, 0, 0)} else s

end Diagram3D

namespace DiagramSimulator2D

/-- Folding one completed run into `total_cell_counts`: `for cell in
diagram.cells: self.total_cell_counts[cell] += 1`. -/
def addRunCells (S : Finset Cell2) (m : Cell2 → ℕ) : Cell2 → ℕ :=
  fun c => if c ∈ S then m c + 1 else m c

/-- The run loop of `DiagramSimulator2D.simulate`: for each run build a fresh
`Diagram2D(initial_cells)`, grow it, and — only if the run completed — fold its
cells into the counts.  A failing run is re-raised, leaving the counts
accumulated so far. `pick r` is run `r`'s independent entropy stream. -/
def aggLoop (pick : ℕ → ℕ → Finset Cell2 → Cell2) (n_steps : ℤ) (alpha : ℚ)
    (initial_cells : Option (Finset Cell2)) :
    ℕ → ℕ → (Cell2 → ℕ) → Except String Unit × (Cell2 → ℕ)
  | _, 0, m => (.ok (), m)
  | r, k + 1, m =>
    match Diagram2D.simulate (Diagram2D.init initial_cells) n_steps alpha (pick r) with
    | .error e => (.error e, m)
    | .ok d => aggLoop pick n_steps alpha initial_cells (r + 1) k (addRunCells d m)

/-- `DiagramSimulator2D.simulate`: validate `n_steps > 0`, `runs > 0`,
`alpha > 0` (in that order, all before the counts are reset), reset
`total_cell_counts` to empty, then run `runs` repetitions.  The pair returned
is (outcome, post-call `total_cell_counts`); `prev` is the pre-call value of
the mutable `total_cell_counts` field. -/
def simulate (prev : Cell2 → ℕ) (n_steps : ℤ) (alpha : ℚ) (runs : ℤ)
    (initial_cells : Option (Finset Cell2)) (pick : ℕ → ℕ → Finset Cell2 → Cell2) :
    Except String Unit × (Cell2 → ℕ) :=
  if n_steps ≤ 0 then (.error msgSteps, prev)
  else if runs ≤ 0 then (.error msgRuns, prev)
  else if alpha ≤ 0 then (.error msgAlpha, prev)
  else aggLoop pick n_steps alpha initial_cells 1 runs.toNat (fun _ => 0)

end DiagramSimulator2D

namespace DiagramSimulator3D

/-- Folding one completed 3D run into `total_cell_counts`. -/
def addRunCells (S : Finset Cell3) (m : Cell3 → ℕ) : Cell3 → ℕ :=
  fun c => if c ∈ S then m c + 1 else m c

/-- The run loop of `DiagramSimulator3D.simulate`. -/
def aggLoop (pick : ℕ → ℕ → Finset Cell3 → Cell3) (n_steps : ℤ) (alpha : ℚ)
    (initial_cells : Option (Finset Cell3)) :
    ℕ → ℕ → (Cell3 → ℕ) → Except String Unit × (Cell3 → ℕ)
  | _, 0, m => (.ok (), m)
  | r, k + 1, m =>
    match Diagram3D.simulate (Diagram3D.init initial_cells) n_steps alpha (pick r) with
    | .error e => (.error e, m)
    | .ok d => aggLoop pick n_steps alpha initial_cells (r + 1) k (addRunCells d m)

/-- `DiagramSimulator3D.simulate`: validate only `n_steps > 0` and `runs > 0`
before resetting the counts; `alpha` is validated inside `Diagram3D.simulate`,
i.e. in the first run, after the reset. -/
def simulate (prev : Cell3 → ℕ) (n_steps : ℤ) (alpha : ℚ) (runs : ℤ)
    (initial_cells : Option (Finset Cell3)) (pick : ℕ → ℕ → Finset Cell3 → Cell3) :
    Except String Unit × (Cell3 → ℕ) :=
  if n_steps ≤ 0 then (.error msgSteps, prev)
  else if runs ≤ 0 then (.error msgRuns, prev)
  else aggLoop pick n_steps alpha initial_cells 1 runs.toNat (fun _ => 0)

end DiagramSimulator3D

namespace Diagram2D

/-- `Diagram2D.calculate_weight`: `((x + 1) + (y + 1)) ** alpha`.  Python
floats are idealized as reals; the float exponent `alpha` (a dyadic rational)
is carried as a rational and the power is the real power `rpow`. -/
noncomputable def calculate_weight (cell : Cell2) (alpha : ℚ) : ℝ :=
  (((cell.1 : ℝ) + 1) + ((cell.2 : ℝ) + 1)) ^ (alpha : ℝ)

end Diagram2D

namespace Diagram3D

/-- `Diagram3D.calculate_weight`: `((x + 1) * (y + 1) * (z + 1)) ** alpha`. -/
noncomputable def calculate_weight (cell : Cell3) (alpha : ℚ) : ℝ :=
  (((cell.1 : ℝ) + 1) * ((cell.2.1 : ℝ) + 1) * ((cell.2.2 : ℝ) + 1)) ^ (alpha : ℝ)

end Diagram3D

namespace LimitShape

/-- `ValueError` message of `compute_limit_shape` on an empty map. -/
def msgEmpty : String := "no data to compute the limit shape"

/-- `ValueError` message of `compute_limit_shape` on a non-positive factor. -/
def msgFactor : String := "scaling factor must be positive"

/-- `n = max(x + y for ...)`: the maximal coordinate sum over the keys. -/
def maxExtent2 (keys : Finset Cell2) : ℕ := keys.sup (fun c => c.1 + c.2)

/-- `n = max(x + y + z for ...)` in the 3D branch. -/
def maxExtent3 (keys : Finset Cell3) : ℕ := keys.sup (fun c => c.1 + c.2.1 + c.2.2)

/-- The scaling factor `compute_limit_shape` resolves for `dimensions=2`:
the caller's override when supplied, else `np.sqrt(n)`. -/
noncomputable def resolvedFactor2 (keys : Finset Cell2) (scaling_factor : Option ℝ) : ℝ :=
  match scaling_factor with
  | none => Real.sqrt (maxExtent2 keys)
  | some s => s

/-- The scaling factor resolved for `dimensions=3`: the override when
supplied, else `np.cbrt(n) = n ** (1/3)`. -/
noncomputable def resolvedFactor3 (keys : Finset Cell3) (scaling_factor : Option ℝ) : ℝ :=
  match scaling_factor with
  | none => (maxExtent3 keys : ℝ) ^ ((1 : ℝ) / 3)
  | some s => s

/-- The validation / scaling-resolution prefix of `compute_limit_shape`
(`dimensions=2`): empty-map check, factor resolution, positivity check.  The
subsequent rescaling and `scipy.interpolate.griddata` call belong to the
external interpolation provider, outside the verified core; the resolved
factor is the observable this model returns. -/
noncomputable def compute_limit_shape2 (keys : Finset Cell2) (scaling_factor : Option ℝ) :
    Except String ℝ :=
  if keys = ∅ then .error msgEmpty
  else if resolvedFactor2 keys scaling_factor ≤ 0 then .error msgFactor
  else .ok (resolvedFactor2 keys scaling_factor)

/-- The validation / scaling-resolution prefix of `compute_limit_shape`
(`dimensions=3`). -/
noncomputable def compute_limit_shape3 (keys : Finset Cell3) (scaling_factor : Option ℝ) :
    Except String ℝ :=
  if keys = ∅ then .error msgEmpty
  else if resolvedFactor3 keys scaling_factor ≤ 0 then .error msgFactor
  else .ok (resolvedFactor3 keys scaling_factor)

end LimitShape

namespace DiagramSimulator2D

/-- One snapshot entry, flattened: the two coordinates, then the count. -/
def encodeEntry (e : Cell2 × ℕ) : List ℕ := [e.1.1, e.1.2, e.2]

/-- `save_state`: the snapshot holds exactly `dict(self.total_cell_counts)`.
The pickle byte stream is modelled as an injective flat serialization of the
dict entries (the spec leaves the on-disk format implementation-defined,
provided the mapping round-trips). -/
def save_state (entries : List (Cell2 × ℕ)) : List ℕ := entries.flatMap encodeEntry

/-- `load_state`: parse the snapshot back into the entry list from which
`defaultdict(int, state["total_cell_counts"])` is rebuilt; a malformed
snapshot fails (`none`). -/
def load_state : List ℕ → Option (List (Cell2 × ℕ))
  | [] => some []
  | x :: y :: n :: rest => (load_state rest).map (fun l => ((x, y), n) :: l)
  | _ => none

end DiagramSimulator2D

namespace DiagramSimulator3D

/-- One 3D snapshot entry, flattened. -/
def encodeEntry (e : Cell3 × ℕ) : List ℕ := [e.1.1, e.1.2.1, e.1.2.2, e.2]

/-- `save_state` for the 3D aggregator, same pickle model. -/
def save_state (entries : List (Cell3 × ℕ)) : List ℕ := entries.flatMap encodeEntry

/-- `load_state` for the 3D aggregator. -/
def load_state : List ℕ → Option (List (Cell3 × ℕ))
  | [] => some []
  | x :: y :: z :: n :: rest => (load_state rest).map (fun l => ((x, y, z), n) :: l)
  | _ => none

end DiagramSimulator3D

/-- A concrete deterministic entropy source over 2D candidate sets, used by
the closed witness statements: it returns the candidate with the smallest
`Nat.pair` encoding. -/
def encodeCell2 (c : Cell2) : ℕ := Nat.pair c.1 c.2

def decodeCell2 (n : ℕ) : Cell2 := (n.unpair.1, n.unpair.2)

def pickMin2 : ℕ → Finset Cell2 → Cell2 := fun _ A =>
  if h : (A.image encodeCell2).Nonempty then decodeCell2 ((A.image encodeCell2).min' h)
  else (0, 0)

/-- A concrete deterministic entropy source over 3D candidate sets. -/
def encodeCell3 (c : Cell3) : ℕ := Nat.pair c.1 (Nat.pair c.2.1 c.2.2)

def decodeCell3 (n : ℕ) : Cell3 := (n.unpair.1, n.unpair.2.unpair.1, n.unpair.2.unpair.2)

def pickMin3 : ℕ → Finset Cell3 → Cell3 := fun _ A =>
  if h : (A.image encodeCell3).Nonempty then decodeCell3 ((A.image encodeCell3).min' h)
  else (0, 0, 0)

/-- The pre-call `total_cell_counts` used by the C4 counterexample: one prior
accumulated run that covered only the origin. -/
def prevC4 : Cell3 → ℕ := fun c => if c = (0, 0, 0) then 1 else 0

namespace Diagram2D

theorem downClosed_imp_dec {S : Finset Cell2} (h : DownClosed S) : DownClosedDec S := by
  intro c hc
  constructor
  · rcases Nat.eq_zero_or_pos c.1 with h0 | h0
    · exact Or.inl h0
    · exact Or.inr (h c hc (c.1 - 1, c.2) (Nat.sub_le _ _) le_rfl)
  · rcases Nat.eq_zero_or_pos c.2 with h0 | h0
    · exact Or.inl h0
    · exact Or.inr (h c hc (c.1, c.2 - 1) le_rfl (Nat.sub_le _ _))

theorem dec_stepX {S : Finset Cell2} (h : DownClosedDec S) :
    ∀ k x y, (x, y) ∈ S → (x - k, y) ∈ S := by
  intro k
  induction k with
  | zero => intro x y hxy; simpa using hxy
  | succ k ih =>
    intro x y hxy
    have hk : (x - k, y) ∈ S := ih x y hxy
    rcases (h _ hk).1 with h0 | hpred
    · have : x - (k + 1) = x - k := by omega
      rw [this]; exact hk
    · have : x - (k + 1) = x - k - 1 := by omega
      rw [this]; exact hpred

theorem dec_stepY {S : Finset Cell2} (h : DownClosedDec S) :
    ∀ k x y, (x, y) ∈ S → (x, y - k) ∈ S := by
  intro k
  induction k with
  | zero => intro x y hxy; simpa using hxy
  | succ k ih =>
    intro x y hxy
    have hk : (x, y - k) ∈ S := ih x y hxy
    rcases (h _ hk).2 with h0 | hpred
    · have : y - (k + 1) = y - k := by omega
      rw [this]; exact hk
    · have : y - (k + 1) = y - k - 1 := by omega
      rw [this]; exact hpred

theorem dec_imp_downClosed {S : Finset Cell2} (h : DownClosedDec S) : DownClosed S := by
  intro c hc c' h1 h2
  have hx : (c'.1, c.2) ∈ S := by
    have := dec_stepX h (c.1 - c'.1) c.1 c.2
    have heq : c.1 - (c.1 - c'.1) = c'.1 := by omega
    rw [heq] at this
    exact this hc
  have hy : (c'.1, c'.2) ∈ S := by
    have := dec_stepY h (c.2 - c'.2) c'.1 c.2
    have heq : c.2 - (c.2 - c'.2) = c'.2 := by omega
    rw [heq] at this
    exact this hx
  exact hy

theorem downClosed_iff_dec {S : Finset Cell2} : DownClosed S ↔ DownClosedDec S :=
  ⟨downClosed_imp_dec, dec_imp_downClosed⟩

theorem mem_addable_imp {S : Finset Cell2} {c : Cell2}
    (h : c ∈ get_addable_cells S) : addableCond S c := by
  unfold get_addable_cells at h
  rcases Finset.mem_biUnion.mp h with ⟨b, _, hc⟩
  exact (Finset.mem_filter.mp hc).2

theorem addable_disjoint {S : Finset Cell2} {c : Cell2}
    (h : c ∈ get_addable_cells S) : c ∉ S :=
  (mem_addable_imp h).1

theorem addable_imp_spec {S : Finset Cell2} {c : Cell2}
    (h : c ∈ get_addable_cells S) : addableSpec S c := by
  rcases mem_addable_imp h with ⟨h1, h2, h3⟩
  exact ⟨h1, h3, h2⟩

/-- A nonempty downward-closed set contains the origin. -/
theorem origin_mem {S : Finset Cell2} (hne : S.Nonempty) (hdc : DownClosed S) :
    ((0, 0) : Cell2) ∈ S := by
  rcases hne with ⟨c, hc⟩
  exact hdc c hc (0, 0) (Nat.zero_le _) (Nat.zero_le _)

/-- Converse inclusion for the optimized scan: with a nonempty downward-closed
cell set, every cell satisfying the definitional condition is a forward
neighbour of some boundary cell, hence found by `get_addable_cells`. -/
theorem spec_imp_addable {S : Finset Cell2} (hne : S.Nonempty) (hdc : DownClosed S)
    {c : Cell2} (h : addableSpec S c) : c ∈ get_addable_cells S := by
  rcases h with ⟨hnotin, hx, hy⟩
  rcases Nat.eq_zero_or_pos c.1 with hx0 | hxpos
  · rcases Nat.eq_zero_or_pos c.2 with hy0 | hypos
    · -- c = (0,0) would be in S by downward closure: contradiction
      exfalso
      apply hnotin
      have : ((0, 0) : Cell2) ∈ S := origin_mem hne hdc
      have hcc : c = ((0, 0) : Cell2) := Prod.ext hx0 hy0
      rw [hcc]; exact this
    · -- c = (0, y+1); the boundary cell below provides it
      have hb : (c.1, c.2 - 1) ∈ S := by
        rcases hy with h0 | hmem
        · omega
        · exact hmem
      have hbd : (c.1, c.2 - 1) ∈ boundary S := by
        apply Finset.mem_filter.mpr
        refine ⟨hb, Or.inr ?_⟩
        have : (c.1, c.2 - 1 + 1) = c := by
          apply Prod.ext
          · rfl
          · simp; omega
        rw [this]; exact hnotin
      apply Finset.mem_biUnion.mpr
      refine ⟨(c.1, c.2 - 1), hbd, ?_⟩
      apply Finset.mem_filter.mpr
      constructor
      · apply Finset.mem_insert.mpr
        right
        apply Finset.mem_singleton.mpr
        apply Prod.ext
        · rfl
        · simp; omega
      · exact ⟨hnotin, hy, hx⟩
  · -- c = (x+1, y); the boundary cell to the left provides it
    have hb : (c.1 - 1, c.2) ∈ S := by
      rcases hx with h0 | hmem
      · omega
      · exact hmem
    have hbd : (c.1 - 1, c.2) ∈ boundary S := by
      apply Finset.mem_filter.mpr
      refine ⟨hb, Or.inl ?_⟩
      have : (c.1 - 1 + 1, c.2) = c := by
        apply Prod.ext
        · simp; omega
        · rfl
      rw [this]; exact hnotin
    apply Finset.mem_biUnion.mpr
    refine ⟨(c.1 - 1, c.2), hbd, ?_⟩
    apply Finset.mem_filter.mpr
    constructor
    · apply Finset.mem_insert.mpr
      left
      apply Prod.ext
      · simp; omega
      · rfl
    · exact ⟨hnotin, hy, hx⟩

theorem addable_eq_spec {S : Finset Cell2} (hne : S.Nonempty) (hdc : DownClosed S)
    (c : Cell2) : c ∈ get_addable_cells S ↔ addableSpec S c :=
  ⟨addable_imp_spec, spec_imp_addable hne hdc⟩

/-- Inserting an addable cell preserves downward closure. -/
theorem downClosed_add_cell {S : Finset Cell2} {c : Cell2} (hdc : DownClosed S)
    (h : c ∈ get_addable_cells S) : DownClosed (add_cell S c) := by
  rcases mem_addable_imp h with ⟨_, hdown, hleft⟩
  intro d hd c' h1 h2
  unfold add_cell at hd ⊢
  rcases Finset.mem_insert.mp hd with hdc' | hdS
  · subst hdc'
    by_cases hcc : c' = d
    · exact Finset.mem_insert.mpr (Or.inl hcc)
    · apply Finset.mem_insert.mpr
      right
      rcases Nat.lt_or_ge c'.1 d.1 with hlt | hge
      · have hmem : (d.1 - 1, d.2) ∈ S := by
          rcases hleft with h0 | hmem
          · omega
          · exact hmem
        exact hdc _ hmem c' (by simp; omega) (by simpa using h2)
      · have hx : c'.1 = d.1 := le_antisymm h1 hge
        have hlt : c'.2 < d.2 := by
          rcases Nat.lt_or_ge c'.2 d.2 with hlt | hge2
          · exact hlt
          · exact absurd (Prod.ext hx (le_antisymm h2 hge2)) hcc
        have hmem : (d.1, d.2 - 1) ∈ S := by
          rcases hdown with h0 | hmem
          · omega
          · exact hmem
        exact hdc _ hmem c' (by simpa using h1) (by simp; omega)
  · exact Finset.mem_insert.mpr (Or.inr (hdc d hdS c' h1 h2))

/-- Under the invariant the addable set is nonempty: the first empty cell of
the bottom row is always addable. -/
theorem addable_nonempty {S : Finset Cell2} (hne : S.Nonempty) (hdc : DownClosed S) :
    (get_addable_cells S).Nonempty := by
  have hex : ∃ x : ℕ, (x, 0) ∉ S := by
    refine ⟨(S.sup (fun c => c.1)) + 1, fun hmem => ?_⟩
    have hle : (S.sup (fun c => c.1)) + 1 ≤ S.sup (fun c => c.1) :=
      Finset.le_sup (f := fun c : Cell2 => c.1) hmem
    omega
  classical
  let x0 := Nat.find hex
  have hx0 : (x0, 0) ∉ S := Nat.find_spec hex
  have hx0pos : 0 < x0 := by
    rcases Nat.eq_zero_or_pos x0 with h0 | hpos
    · exfalso
      apply hx0
      have : ((0, 0) : Cell2) ∈ S := origin_mem hne hdc
      rw [h0]; exact this
    · exact hpos
  have hprev : (x0 - 1, 0) ∈ S := by
    by_contra hno
    have := Nat.find_min hex (m := x0 - 1) (by omega)
    exact this hno
  refine ⟨(x0, 0), spec_imp_addable hne hdc ⟨hx0, Or.inr (by simpa using hprev), Or.inl rfl⟩⟩

end Diagram2D

namespace Diagram3D

theorem downClosed_imp_dec3 {S : Finset Cell3} (h : DownClosed S) : DownClosedDec S := by
  intro c hc
  refine ⟨?_, ?_, ?_⟩
  · rcases Nat.eq_zero_or_pos c.1 with h0 | h0
    · exact Or.inl h0
    · exact Or.inr (h c hc (c.1 - 1, c.2.1, c.2.2) (Nat.sub_le _ _) le_rfl le_rfl)
  · rcases Nat.eq_zero_or_pos c.2.1 with h0 | h0
    · exact Or.inl h0
    · exact Or.inr (h c hc (c.1, c.2.1 - 1, c.2.2) le_rfl (Nat.sub_le _ _) le_rfl)
  · rcases Nat.eq_zero_or_pos c.2.2 with h0 | h0
    · exact Or.inl h0
    · exact Or.inr (h c hc (c.1, c.2.1, c.2.2 - 1) le_rfl le_rfl (Nat.sub_le _ _))

theorem dec_stepX3 {S : Finset Cell3} (h : DownClosedDec S) :
    ∀ k x y z, (x, y, z) ∈ S → (x - k, y, z) ∈ S := by
  intro k
  induction k with
  | zero => intro x y z hxy; simpa using hxy
  | succ k ih =>
    intro x y z hxy
    have hk : (x - k, y, z) ∈ S := ih x y z hxy
    rcases (h _ hk).1 with h0 | hpred
    · have : x - (k + 1) = x - k := by omega
      rw [this]; exact hk
    · have : x - (k + 1) = x - k - 1 := by omega
      rw [this]; exact hpred

theorem dec_stepY3 {S : Finset Cell3} (h : DownClosedDec S) :
    ∀ k x y z, (x, y, z) ∈ S → (x, y - k, z) ∈ S := by
  intro k
  induction k with
  | zero => intro x y z hxy; simpa using hxy
  | succ k ih =>
    intro x y z hxy
    have hk : (x, y - k, z) ∈ S := ih x y z hxy
    rcases (h _ hk).2.1 with h0 | hpred
    · have h0' : y - k = 0 := h0
      have : y - (k + 1) = y - k := by omega
      rw [this]; exact hk
    · have : y - (k + 1) = y - k - 1 := by omega
      rw [this]; exact hpred

theorem dec_stepZ {S : Finset Cell3} (h : DownClosedDec S) :
    ∀ k x y z, (x, y, z) ∈ S → (x, y, z - k) ∈ S := by
  intro k
  induction k with
  | zero => intro x y z hxy; simpa using hxy
  | succ k ih =>
    intro x y z hxy
    have hk : (x, y, z - k) ∈ S := ih x y z hxy
    rcases (h _ hk).2.2 with h0 | hpred
    · have h0' : z - k = 0 := h0
      have : z - (k + 1) = z - k := by omega
      rw [this]; exact hk
    · have : z - (k + 1) = z - k - 1 := by omega
      rw [this]; exact hpred

theorem dec_imp_downClosed3 {S : Finset Cell3} (h : DownClosedDec S) : DownClosed S := by
  intro c hc c' h1 h2 h3
  have hx : (c'.1, c.2.1, c.2.2) ∈ S := by
    have hstep := dec_stepX3 h (c.1 - c'.1) c.1 c.2.1 c.2.2
    have heq : c.1 - (c.1 - c'.1) = c'.1 := by omega
    rw [heq] at hstep
    exact hstep hc
  have hy : (c'.1, c'.2.1, c.2.2) ∈ S := by
    have hstep := dec_stepY3 h (c.2.1 - c'.2.1) c'.1 c.2.1 c.2.2
    have heq : c.2.1 - (c.2.1 - c'.2.1) = c'.2.1 := by omega
    rw [heq] at hstep
    exact hstep hx
  have hz : (c'.1, c'.2.1, c'.2.2) ∈ S := by
    have hstep := dec_stepZ h (c.2.2 - c'.2.2) c'.1 c'.2.1 c.2.2
    have heq : c.2.2 - (c.2.2 - c'.2.2) = c'.2.2 := by omega
    rw [heq] at hstep
    exact hstep hy
  exact hz

theorem downClosed_iff_dec3 {S : Finset Cell3} : DownClosed S ↔ DownClosedDec S :=
  ⟨downClosed_imp_dec3, dec_imp_downClosed3⟩

theorem mem_addable_imp3 {S : Finset Cell3} {c : Cell3}
    (h : c ∈ get_addable_cells S) : addableCond S c := by
  unfold get_addable_cells at h
  rcases Finset.mem_biUnion.mp h with ⟨b, _, hc⟩
  exact (Finset.mem_filter.mp hc).2

theorem addable_disjoint3 {S : Finset Cell3} {c : Cell3}
    (h : c ∈ get_addable_cells S) : c ∉ S :=
  (mem_addable_imp3 h).1

theorem addable_imp_spec3 {S : Finset Cell3} {c : Cell3}
    (h : c ∈ get_addable_cells S) : addableSpec S c := by
  rcases mem_addable_imp3 h with ⟨h1, h2, h3, h4⟩
  exact ⟨h1, h3, h2, h4⟩

theorem origin_mem3 {S : Finset Cell3} (hne : S.Nonempty) (hdc : DownClosed S) :
    ((0, 0, 0) : Cell3) ∈ S := by
  rcases hne with ⟨c, hc⟩
  exact hdc c hc (0, 0, 0) (Nat.zero_le _) (Nat.zero_le _) (Nat.zero_le _)

/-- Converse inclusion of the optimized scan in ℕ³. -/
theorem spec_imp_addable3 {S : Finset Cell3} (hne : S.Nonempty) (hdc : DownClosed S)
    {c : Cell3} (h : addableSpec S c) : c ∈ get_addable_cells S := by
  rcases h with ⟨hnotin, hx, hy, hz⟩
  have hcond : addableCond S c := ⟨hnotin, hy, hx, hz⟩
  rcases Nat.eq_zero_or_pos c.1 with hx0 | hxpos
  · rcases Nat.eq_zero_or_pos c.2.1 with hy0 | hypos
    · rcases Nat.eq_zero_or_pos c.2.2 with hz0 | hzpos
      · exfalso
        apply hnotin
        have horig : ((0, 0, 0) : Cell3) ∈ S := origin_mem3 hne hdc
        have hcc : c = ((0, 0, 0) : Cell3) := Prod.ext hx0 (Prod.ext hy0 hz0)
        rw [hcc]; exact horig
      · -- back neighbour provides it
        have hb : (c.1, c.2.1, c.2.2 - 1) ∈ S := by
          rcases hz with h0 | hmem
          · omega
          · exact hmem
        have hfwd : (c.1, c.2.1, c.2.2 - 1 + 1) = c := by
          apply Prod.ext
          · rfl
          · apply Prod.ext
            · rfl
            · simp; omega
        have hbd : (c.1, c.2.1, c.2.2 - 1) ∈ boundary S := by
          apply Finset.mem_filter.mpr
          refine ⟨hb, Or.inr (Or.inr ?_)⟩
          rw [hfwd]; exact hnotin
        apply Finset.mem_biUnion.mpr
        refine ⟨(c.1, c.2.1, c.2.2 - 1), hbd, ?_⟩
        apply Finset.mem_filter.mpr
        refine ⟨?_, hcond⟩
        apply Finset.mem_insert.mpr
        right
        apply Finset.mem_insert.mpr
        right
        apply Finset.mem_singleton.mpr
        exact hfwd.symm
    · -- lower neighbour provides it
      have hb : (c.1, c.2.1 - 1, c.2.2) ∈ S := by
        rcases hy with h0 | hmem
        · omega
        · exact hmem
      have hfwd : (c.1, c.2.1 - 1 + 1, c.2.2) = c := by
        apply Prod.ext
        · rfl
        · apply Prod.ext
          · simp; omega
          · rfl
      have hbd : (c.1, c.2.1 - 1, c.2.2) ∈ boundary S := by
        apply Finset.mem_filter.mpr
        refine ⟨hb, Or.inr (Or.inl ?_)⟩
        rw [hfwd]; exact hnotin
      apply Finset.mem_biUnion.mpr
      refine ⟨(c.1, c.2.1 - 1, c.2.2), hbd, ?_⟩
      apply Finset.mem_filter.mpr
      refine ⟨?_, hcond⟩
      apply Finset.mem_insert.mpr
      right
      apply Finset.mem_insert.mpr
      left
      exact hfwd.symm
  · -- left neighbour provides it
    have hb : (c.1 - 1, c.2.1, c.2.2) ∈ S := by
      rcases hx with h0 | hmem
      · omega
      · exact hmem
    have hfwd : (c.1 - 1 + 1, c.2.1, c.2.2) = c := by
      apply Prod.ext
      · simp; omega
      · rfl
    have hbd : (c.1 - 1, c.2.1, c.2.2) ∈ boundary S := by
      apply Finset.mem_filter.mpr
      refine ⟨hb, Or.inl ?_⟩
      rw [hfwd]; exact hnotin
    apply Finset.mem_biUnion.mpr
    refine ⟨(c.1 - 1, c.2.1, c.2.2), hbd, ?_⟩
    apply Finset.mem_filter.mpr
    refine ⟨?_, hcond⟩
    apply Finset.mem_insert.mpr
    left
    exact hfwd.symm

theorem addable_eq_spec3 {S : Finset Cell3} (hne : S.Nonempty) (hdc : DownClosed S)
    (c : Cell3) : c ∈ get_addable_cells S ↔ addableSpec S c :=
  ⟨addable_imp_spec3, spec_imp_addable3 hne hdc⟩

/-- Inserting an addable cell preserves downward closure in ℕ³. -/
theorem downClosed_add_cell3 {S : Finset Cell3} {c : Cell3} (hdc : DownClosed S)
    (h : c ∈ get_addable_cells S) : DownClosed (add_cell S c) := by
  rcases addable_imp_spec3 h with ⟨_, hx, hy, hz⟩
  intro d hd c' h1 h2 h3
  unfold add_cell at hd ⊢
  rcases Finset.mem_insert.mp hd with hdc' | hdS
  · subst hdc'
    by_cases hcc : c' = d
    · exact Finset.mem_insert.mpr (Or.inl hcc)
    · apply Finset.mem_insert.mpr
      right
      rcases Nat.lt_or_ge c'.1 d.1 with hlt | hge
      · have hmem : (d.1 - 1, d.2.1, d.2.2) ∈ S := by
          rcases hx with h0 | hmem
          · omega
          · exact hmem
        exact hdc _ hmem c' (by simp; omega) (by simpa using h2) (by simpa using h3)
      · have hex : c'.1 = d.1 := le_antisymm h1 hge
        rcases Nat.lt_or_ge c'.2.1 d.2.1 with hlt2 | hge2
        · have hmem : (d.1, d.2.1 - 1, d.2.2) ∈ S := by
            rcases hy with h0 | hmem
            · omega
            · exact hmem
          exact hdc _ hmem c' (by simpa using h1) (by simp; omega) (by simpa using h3)
        · have hey : c'.2.1 = d.2.1 := le_antisymm h2 hge2
          have hlt3 : c'.2.2 < d.2.2 := by
            rcases Nat.lt_or_ge c'.2.2 d.2.2 with hlt3 | hge3
            · exact hlt3
            · exact absurd (Prod.ext hex (Prod.ext hey (le_antisymm h3 hge3))) hcc
          have hmem : (d.1, d.2.1, d.2.2 - 1) ∈ S := by
            rcases hz with h0 | hmem
            · omega
            · exact hmem
          exact hdc _ hmem c' (by simpa using h1) (by simpa using h2) (by simp; omega)
  · exact Finset.mem_insert.mpr (Or.inr (hdc d hdS c' h1 h2 h3))

/-- Under the invariant the addable set is nonempty in ℕ³ as well. -/
theorem addable_nonempty3 {S : Finset Cell3} (hne : S.Nonempty) (hdc : DownClosed S) :
    (get_addable_cells S).Nonempty := by
  have hex : ∃ x : ℕ, (x, 0, 0) ∉ S := by
    refine ⟨(S.sup (fun c => c.1)) + 1, fun hmem => ?_⟩
    have hle : (S.sup (fun c => c.1)) + 1 ≤ S.sup (fun c => c.1) :=
      Finset.le_sup (f := fun c : Cell3 => c.1) hmem
    omega
  classical
  let x0 := Nat.find hex
  have hx0 : (x0, 0, 0) ∉ S := Nat.find_spec hex
  have hx0pos : 0 < x0 := by
    rcases Nat.eq_zero_or_pos x0 with h0 | hpos
    · exfalso
      apply hx0
      have horig : ((0, 0, 0) : Cell3) ∈ S := origin_mem3 hne hdc
      rw [h0]; exact horig
    · exact hpos
  have hprev : (x0 - 1, 0, 0) ∈ S := by
    by_contra hno
    have := Nat.find_min hex (m := x0 - 1) (by omega)
    exact this hno
  refine ⟨(x0, 0, 0),
    spec_imp_addable3 hne hdc ⟨hx0, Or.inr (by simpa using hprev), Or.inl rfl, Or.inl rfl⟩⟩

end Diagram3D

namespace Diagram2D

theorem simLoop_ok_card {pick : ℕ → Finset Cell2 → Cell2} (hp : ValidPick pick) :
    ∀ k i S T, simLoop pick i k S = .ok T → T.card = S.card + k := by
  intro k
  induction k with
  | zero =>
    intro i S T h
    simp only [simLoop] at h
    cases h
    simp
  | succ k ih =>
    intro i S T h
    simp only [simLoop] at h
    by_cases hA : get_addable_cells S = ∅
    · simp [hA] at h
    · rw [if_neg hA] at h
      have hne : (get_addable_cells S).Nonempty := Finset.nonempty_iff_ne_empty.mpr hA
      have hmem := hp i _ hne
      have hnotin : pick i (get_addable_cells S) ∉ S := addable_disjoint hmem
      have hcard : (add_cell S (pick i (get_addable_cells S))).card = S.card + 1 := by
        unfold add_cell
        exact Finset.card_insert_of_not_mem hnotin
      have := ih _ _ _ h
      rw [hcard] at this
      omega

theorem simLoop_downClosed {pick : ℕ → Finset Cell2 → Cell2} (hp : ValidPick pick) :
    ∀ k i S T, DownClosed S → simLoop pick i k S = .ok T → DownClosed T := by
  intro k
  induction k with
  | zero =>
    intro i S T hdc h
    simp only [simLoop] at h
    cases h
    exact hdc
  | succ k ih =>
    intro i S T hdc h
    simp only [simLoop] at h
    by_cases hA : get_addable_cells S = ∅
    · simp [hA] at h
    · rw [if_neg hA] at h
      have hne : (get_addable_cells S).Nonempty := Finset.nonempty_iff_ne_empty.mpr hA
      have hmem := hp i _ hne
      exact ih _ _ _ (downClosed_add_cell hdc hmem) h

theorem simLoop_ok_of_inv {pick : ℕ → Finset Cell2 → Cell2} (hp : ValidPick pick) :
    ∀ k i S, S.Nonempty → DownClosed S → ∃ T, simLoop pick i k S = .ok T := by
  intro k
  induction k with
  | zero =>
    intro i S _ _
    exact ⟨S, rfl⟩
  | succ k ih =>
    intro i S hne hdc
    have hA : (get_addable_cells S).Nonempty := addable_nonempty hne hdc
    have hAne : get_addable_cells S ≠ ∅ := Finset.nonempty_iff_ne_empty.mp hA
    have hmem := hp i _ hA
    have hne' : (add_cell S (pick i (get_addable_cells S))).Nonempty :=
      Finset.insert_nonempty _ _
    rcases ih (i + 1) _ hne' (downClosed_add_cell hdc hmem) with ⟨T, hT⟩
    refine ⟨T, ?_⟩
    simp only [simLoop]
    rw [if_neg hAne]
    exact hT

end Diagram2D

namespace Diagram3D

theorem simLoop_card {pick : ℕ → Finset Cell3 → Cell3} (hp : ValidPick pick) :
    ∀ k i S, (simLoop pick i k S).card ≤ S.card + k ∧
      ((simLoop pick i k S).card = S.card + k ∨
        get_addable_cells (simLoop pick i k S) = ∅) := by
  intro k
  induction k with
  | zero =>
    intro i S
    simp [simLoop]
  | succ k ih =>
    intro i S
    by_cases hA : get_addable_cells S = ∅
    · constructor
      · simp [simLoop, hA]
      · right
        simp [simLoop, hA]
    · have hne : (get_addable_cells S).Nonempty := Finset.nonempty_iff_ne_empty.mpr hA
      have hmem := hp i _ hne
      have hnotin : pick i (get_addable_cells S) ∉ S := addable_disjoint3 hmem
      have hcard : (add_cell S (pick i (get_addable_cells S))).card = S.card + 1 := by
        unfold add_cell
        exact Finset.card_insert_of_not_mem hnotin
      have hstep : simLoop pick i (k + 1) S =
          simLoop pick (i + 1) k (add_cell S (pick i (get_addable_cells S))) := by
        simp only [simLoop]
        rw [if_neg hA]
      rcases ih (i + 1) (add_cell S (pick i (get_addable_cells S))) with ⟨h1, h2⟩
      rw [hcard] at h1 h2
      constructor
      · rw [hstep]; omega
      · rw [hstep]
        rcases h2 with h2 | h2
        · left; omega
        · right; exact h2

theorem simLoop_downClosed3 {pick : ℕ → Finset Cell3 → Cell3} (hp : ValidPick pick) :
    ∀ k i S, DownClosed S → DownClosed (simLoop pick i k S) := by
  intro k
  induction k with
  | zero =>
    intro i S hdc
    simpa [simLoop] using hdc
  | succ k ih =>
    intro i S hdc
    by_cases hA : get_addable_cells S = ∅
    · simpa [simLoop, hA] using hdc
    · have hne : (get_addable_cells S).Nonempty := Finset.nonempty_iff_ne_empty.mpr hA
      have hmem := hp i _ hne
      have hstep : simLoop pick i (k + 1) S =
          simLoop pick (i + 1) k (add_cell S (pick i (get_addable_cells S))) := by
        simp only [simLoop]
        rw [if_neg hA]
      rw [hstep]
      exact ih _ _ (downClosed_add_cell3 hdc hmem)

theorem simLoop_card_exact {pick : ℕ → Finset Cell3 → Cell3} (hp : ValidPick pick) :
    ∀ k i S, S.Nonempty → DownClosed S → (simLoop pick i k S).card = S.card + k := by
  intro k
  induction k with
  | zero =>
    intro i S _ _
    simp [simLoop]
  | succ k ih =>
    intro i S hne hdc
    have hA : (get_addable_cells S).Nonempty := addable_nonempty3 hne hdc
    have hAne : get_addable_cells S ≠ ∅ := Finset.nonempty_iff_ne_empty.mp hA
    have hmem := hp i _ hA
    have hnotin : pick i (get_addable_cells S) ∉ S := addable_disjoint3 hmem
    have hcard : (add_cell S (pick i (get_addable_cells S))).card = S.card + 1 := by
      unfold add_cell
      exact Finset.card_insert_of_not_mem hnotin
    have hstep : simLoop pick i (k + 1) S =
        simLoop pick (i + 1) k (add_cell S (pick i (get_addable_cells S))) := by
      simp only [simLoop]
      rw [if_neg hAne]
    have hrec := ih (i + 1) (add_cell S (pick i (get_addable_cells S)))
      (Finset.insert_nonempty _ _) (downClosed_add_cell3 hdc hmem)
    rw [hstep, hrec, hcard]
    omega

end Diagram3D

namespace DiagramSimulator2D

theorem aggLoop_ok {pick : ℕ → ℕ → Finset Cell2 → Cell2} {n_steps : ℤ} {alpha : ℚ}
    {initial_cells : Option (Finset Cell2)} :
    ∀ k r m m', aggLoop pick n_steps alpha initial_cells r k m = (.ok (), m') →
      ∀ c, m' c ≤ m c + k ∧ (m' c ≠ 0 → m c ≠ 0 ∨
        ∃ j, r ≤ j ∧ j < r + k ∧ ∃ T,
          Diagram2D.simulate (Diagram2D.init initial_cells) n_steps alpha (pick j) =
            .ok T ∧ c ∈ T) := by
  intro k
  induction k with
  | zero =>
    intro r m m' h c
    simp only [aggLoop] at h
    cases h
    exact ⟨Nat.le_refl _, fun hc => Or.inl hc⟩
  | succ k ih =>
    intro r m m' h c
    simp only [aggLoop] at h
    rcases hsim : Diagram2D.simulate (Diagram2D.init initial_cells) n_steps alpha (pick r)
      with e | d
    · rw [hsim] at h
      simp at h
    · rw [hsim] at h
      simp only at h
      rcases ih (r + 1) (addRunCells d m) m' h c with ⟨hle, hnz⟩
      have hstep : addRunCells d m c ≤ m c + 1 := by
        unfold addRunCells
        by_cases hcd : c ∈ d <;> simp [hcd]
      constructor
      · omega
      · intro hc
        rcases hnz hc with hnz' | ⟨j, hj1, hj2, T, hT, hcT⟩
        · unfold addRunCells at hnz'
          by_cases hcd : c ∈ d
          · right
            exact ⟨r, Nat.le_refl _, by omega, d, hsim, hcd⟩
          · left
            simpa [hcd] using hnz'
        · right
          exact ⟨j, by omega, by omega, T, hT, hcT⟩

end DiagramSimulator2D

namespace DiagramSimulator3D

theorem aggLoop_ok3 {pick : ℕ → ℕ → Finset Cell3 → Cell3} {n_steps : ℤ} {alpha : ℚ}
    {initial_cells : Option (Finset Cell3)} :
    ∀ k r m m', aggLoop pick n_steps alpha initial_cells r k m = (.ok (), m') →
      ∀ c, m' c ≤ m c + k ∧ (m' c ≠ 0 → m c ≠ 0 ∨
        ∃ j, r ≤ j ∧ j < r + k ∧ ∃ T,
          Diagram3D.simulate (Diagram3D.init initial_cells) n_steps alpha (pick j) =
            .ok T ∧ c ∈ T) := by
  intro k
  induction k with
  | zero =>
    intro r m m' h c
    simp only [aggLoop] at h
    cases h
    exact ⟨Nat.le_refl _, fun hc => Or.inl hc⟩
  | succ k ih =>
    intro r m m' h c
    simp only [aggLoop] at h
    rcases hsim : Diagram3D.simulate (Diagram3D.init initial_cells) n_steps alpha (pick r)
      with e | d
    · rw [hsim] at h
      simp at h
    · rw [hsim] at h
      simp only at h
      rcases ih (r + 1) (addRunCells d m) m' h c with ⟨hle, hnz⟩
      have hstep : addRunCells d m c ≤ m c + 1 := by
        unfold addRunCells
        by_cases hcd : c ∈ d <;> simp [hcd]
      constructor
      · omega
      · intro hc
        rcases hnz hc with hnz' | ⟨j, hj1, hj2, T, hT, hcT⟩
        · unfold addRunCells at hnz'
          by_cases hcd : c ∈ d
          · right
            exact ⟨r, Nat.le_refl _, by omega, d, hsim, hcd⟩
          · left
            simpa [hcd] using hnz'
        · right
          exact ⟨j, by omega, by omega, T, hT, hcT⟩

end DiagramSimulator3D

theorem pickMin2_valid : Diagram2D.ValidPick pickMin2 := by
  intro i A hA
  unfold pickMin2
  have hne : (A.image encodeCell2).Nonempty := hA.image _
  rw [dif_pos hne]
  have hmem := Finset.min'_mem _ hne
  rcases Finset.mem_image.mp hmem with ⟨c, hc, hpair⟩
  rw [← hpair]
  have : decodeCell2 (encodeCell2 c) = c := by
    unfold decodeCell2 encodeCell2
    rw [Nat.unpair_pair]
  rw [this]
  exact hc

theorem pickMin3_valid : Diagram3D.ValidPick pickMin3 := by
  intro i A hA
  unfold pickMin3
  have hne : (A.image encodeCell3).Nonempty := hA.image _
  rw [dif_pos hne]
  have hmem := Finset.min'_mem _ hne
  rcases Finset.mem_image.mp hmem with ⟨c, hc, hpair⟩
  rw [← hpair]
  have : decodeCell3 (encodeCell3 c) = c := by
    unfold decodeCell3 encodeCell3
    rw [Nat.unpair_pair, Nat.unpair_pair]
  rw [this]
  exact hc

theorem load_save_2 :
    ∀ entries, DiagramSimulator2D.load_state (DiagramSimulator2D.save_state entries) =
      some entries := by
  intro entries
  induction entries with
  | nil => rfl
  | cons e t ih =>
    rcases e with ⟨⟨x, y⟩, n⟩
    simp only [DiagramSimulator2D.save_state, List.flatMap_cons,
      DiagramSimulator2D.encodeEntry] at *
    simp [DiagramSimulator2D.load_state, ih]

theorem load_save_3 :
    ∀ entries, DiagramSimulator3D.load_state (DiagramSimulator3D.save_state entries) =
      some entries := by
  intro entries
  induction entries with
  | nil => rfl
  | cons e t ih =>
    rcases e with ⟨⟨x, y, z⟩, n⟩
    simp only [DiagramSimulator3D.save_state, List.flatMap_cons,
      DiagramSimulator3D.encodeEntry] at *
    simp [DiagramSimulator3D.load_state, ih]

/-- C1: for d ∈ {2,3}, if `cells` is a downward-closed order ideal of ℕ^d and
`c` is an element of `get_addable_cells()`, then after `add_cell(c)` the set
`cells` is again a downward-closed order ideal; consequently the invariant
holds after every add performed during `simulate` (for every entropy source
that picks among the candidates). -/
theorem C1_add_preserves_order_ideal :
    (∀ (S : Finset Cell2) (c : Cell2), Diagram2D.DownClosed S →
      c ∈ Diagram2D.get_addable_cells S → Diagram2D.DownClosed (Diagram2D.add_cell S c)) ∧
    (∀ (S : Finset Cell3) (c : Cell3), Diagram3D.DownClosed S →
      c ∈ Diagram3D.get_addable_cells S → Diagram3D.DownClosed (Diagram3D.add_cell S c)) ∧
    (∀ (pick : ℕ → Finset Cell2 → Cell2) (S T : Finset Cell2) (n_steps : ℤ) (alpha : ℚ),
      Diagram2D.ValidPick pick → Diagram2D.DownClosed S →
      Diagram2D.simulate S n_steps alpha pick = .ok T → Diagram2D.DownClosed T) ∧
    (∀ (pick : ℕ → Finset Cell3 → Cell3) (S T : Finset Cell3) (n_steps : ℤ) (alpha : ℚ),
      Diagram3D.ValidPick pick → Diagram3D.DownClosed S →
      Diagram3D.simulate S n_steps alpha pick = .ok T → Diagram3D.DownClosed T) := by
  refine ⟨fun S c hdc h => Diagram2D.downClosed_add_cell hdc h,
    fun S c hdc h => Diagram3D.downClosed_add_cell3 hdc h, ?_, ?_⟩
  · intro pick S T n alpha hp hdc h
    unfold Diagram2D.simulate at h
    by_cases hn : n ≤ 0
    · rw [if_pos hn] at h
      exact absurd h (by simp)
    · rw [if_neg hn] at h
      exact Diagram2D.simLoop_downClosed hp _ _ _ _ hdc h
  · intro pick S T n alpha hp hdc h
    unfold Diagram3D.simulate at h
    by_cases hn : n ≤ 0
    · rw [if_pos hn] at h
      exact absurd h (by simp)
    · rw [if_neg hn] at h
      by_cases ha : alpha ≤ 0
      · rw [if_pos ha] at h
        exact absurd h (by simp)
      · rw [if_neg ha] at h
        have hT : T = Diagram3D.simLoop pick 0 n.toNat S := by
          injection h with h2
          exact h2.symm
        rw [hT]
        exact Diagram3D.simLoop_downClosed3 hp _ _ _ hdc

theorem C1_witness :
    Diagram2D.DownClosed (Diagram2D.add_cell {((0, 0) : Cell2)} (0, 1)) :=
  C1_add_preserves_order_ideal.1 {(0, 0)} (0, 1)
    (Diagram2D.dec_imp_downClosed (by decide)) (by decide)

/-- C2: a successful aggregator call `simulate(n_steps, alpha, runs, ...)`
yields a frequency map whose every stored value lies in [1, runs], and every
key present belongs to the final cell set of at least one completed run of
that call. -/
theorem C2_freq_map_bounds :
    (∀ (prev : Cell2 → ℕ) (n_steps : ℤ) (alpha : ℚ) (runs : ℤ)
      (initial_cells : Option (Finset Cell2)) (pick : ℕ → ℕ → Finset Cell2 → Cell2)
      (m : Cell2 → ℕ),
      DiagramSimulator2D.simulate prev n_steps alpha runs initial_cells pick = (.ok (), m) →
      ∀ c, m c ≠ 0 → 1 ≤ m c ∧ (m c : ℤ) ≤ runs ∧
        ∃ r : ℕ, 1 ≤ r ∧ (r : ℤ) ≤ runs ∧ ∃ T,
          Diagram2D.simulate (Diagram2D.init initial_cells) n_steps alpha (pick r) = .ok T ∧
          c ∈ T) ∧
    (∀ (prev : Cell3 → ℕ) (n_steps : ℤ) (alpha : ℚ) (runs : ℤ)
      (initial_cells : Option (Finset Cell3)) (pick : ℕ → ℕ → Finset Cell3 → Cell3)
      (m : Cell3 → ℕ),
      DiagramSimulator3D.simulate prev n_steps alpha runs initial_cells pick = (.ok (), m) →
      ∀ c, m c ≠ 0 → 1 ≤ m c ∧ (m c : ℤ) ≤ runs ∧
        ∃ r : ℕ, 1 ≤ r ∧ (r : ℤ) ≤ runs ∧ ∃ T,
          Diagram3D.simulate (Diagram3D.init initial_cells) n_steps alpha (pick r) = .ok T ∧
          c ∈ T) := by
  constructor
  · intro prev n alpha runs ic pick m h c hc
    unfold DiagramSimulator2D.simulate at h
    by_cases hn : n ≤ 0
    · rw [if_pos hn] at h
      exact absurd h (by simp)
    rw [if_neg hn] at h
    by_cases hr : runs ≤ 0
    · rw [if_pos hr] at h
      exact absurd h (by simp)
    rw [if_neg hr] at h
    by_cases ha : alpha ≤ 0
    · rw [if_pos ha] at h
      exact absurd h (by simp)
    rw [if_neg ha] at h
    rcases DiagramSimulator2D.aggLoop_ok _ _ _ _ h c with ⟨hle, hnz⟩
    rcases hnz hc with h0 | ⟨j, hj1, hj2, T, hT, hcT⟩
    · exact absurd rfl h0
    · exact ⟨by omega, by omega, j, hj1, by omega, T, hT, hcT⟩
  · intro prev n alpha runs ic pick m h c hc
    unfold DiagramSimulator3D.simulate at h
    by_cases hn : n ≤ 0
    · rw [if_pos hn] at h
      exact absurd h (by simp)
    rw [if_neg hn] at h
    by_cases hr : runs ≤ 0
    · rw [if_pos hr] at h
      exact absurd h (by simp)
    rw [if_neg hr] at h
    rcases DiagramSimulator3D.aggLoop_ok3 _ _ _ _ h c with ⟨hle, hnz⟩
    rcases hnz hc with h0 | ⟨j, hj1, hj2, T, hT, hcT⟩
    · exact absurd rfl h0
    · exact ⟨by omega, by omega, j, hj1, by omega, T, hT, hcT⟩

theorem C2_witness :
    1 ≤ (DiagramSimulator2D.simulate (fun _ => 0) 1 1 1 none (fun _ => pickMin2)).2 (0, 0) ∧
    (((DiagramSimulator2D.simulate (fun _ => 0) 1 1 1 none (fun _ => pickMin2)).2 (0, 0) : ℤ)
      ≤ 1) ∧
    ∃ r : ℕ, 1 ≤ r ∧ (r : ℤ) ≤ 1 ∧ ∃ T,
      Diagram2D.simulate (Diagram2D.init none) 1 1 pickMin2 = .ok T ∧ (0, 0) ∈ T :=
  C2_freq_map_bounds.1 (fun _ => 0) 1 1 1 none (fun _ => pickMin2)
    ((DiagramSimulator2D.simulate (fun _ => 0) 1 1 1 none (fun _ => pickMin2)).2)
    rfl (0, 0) (by decide)

/-- C3: when the addable set is empty, the 2D engine raises `ValueError`
aborting the run, while the 3D engine (with validated parameters) stops early
without error and returns the state as grown so far — in particular the 3D
engine never fails after validation. -/
theorem C3_exhaustion_policies :
    (∀ (S : Finset Cell2) (n_steps : ℤ) (alpha : ℚ) (pick : ℕ → Finset Cell2 → Cell2),
      0 < n_steps → Diagram2D.get_addable_cells S = ∅ →
      Diagram2D.simulate S n_steps alpha pick = .error msgNoAddable) ∧
    (∀ (S : Finset Cell3) (n_steps : ℤ) (alpha : ℚ) (pick : ℕ → Finset Cell3 → Cell3),
      0 < n_steps → 0 < alpha → Diagram3D.get_addable_cells S = ∅ →
      Diagram3D.simulate S n_steps alpha pick = .ok S) ∧
    (∀ (S : Finset Cell3) (n_steps : ℤ) (alpha : ℚ) (pick : ℕ → Finset Cell3 → Cell3),
      0 < n_steps → 0 < alpha →
      ∃ T, Diagram3D.simulate S n_steps alpha pick = .ok T) := by
  refine ⟨?_, ?_, ?_⟩
  · intro S n alpha pick hn hA
    unfold Diagram2D.simulate
    rw [if_neg (by omega)]
    rcases (show ∃ k, n.toNat = k + 1 from ⟨n.toNat - 1, by omega⟩) with ⟨k, hk⟩
    rw [hk]
    simp [Diagram2D.simLoop, hA]
  · intro S n alpha pick hn ha hA
    unfold Diagram3D.simulate
    rw [if_neg (by omega), if_neg (not_le.mpr ha)]
    rcases (show ∃ k, n.toNat = k + 1 from ⟨n.toNat - 1, by omega⟩) with ⟨k, hk⟩
    rw [hk]
    simp [Diagram3D.simLoop, hA]
  · intro S n alpha pick hn ha
    refine ⟨Diagram3D.simLoop pick 0 n.toNat S, ?_⟩
    unfold Diagram3D.simulate
    rw [if_neg (by omega), if_neg (not_le.mpr ha)]

theorem C3_witness :
    Diagram2D.simulate ∅ 1 1 pickMin2 = .error msgNoAddable ∧
    Diagram3D.simulate ∅ 1 1 pickMin3 = .ok ∅ :=
  ⟨C3_exhaustion_policies.1 ∅ 1 1 pickMin2 (by decide) (by decide),
    C3_exhaustion_policies.2.1 ∅ 1 1 pickMin3 (by decide) (by decide) (by decide)⟩

/-- C4 (amended): both aggregators raise on `n_steps ≤ 0`, `runs ≤ 0` or
`alpha ≤ 0`.  The 2D aggregator performs all three checks before resetting
`total_cell_counts`, so any failing 2D call leaves the previously accumulated
map unchanged; the 3D aggregator checks only `n_steps` and `runs` before the
reset, while `alpha ≤ 0` is detected inside the first run's engine after the
reset, so such a 3D call raises but leaves the map reset to empty. -/
theorem C4_validation_and_reset_order :
    (∀ (prev : Cell2 → ℕ) (n_steps : ℤ) (alpha : ℚ) (runs : ℤ)
      (initial_cells : Option (Finset Cell2)) (pick : ℕ → ℕ → Finset Cell2 → Cell2),
      (n_steps ≤ 0 ∨ runs ≤ 0 ∨ alpha ≤ 0) →
      (DiagramSimulator2D.simulate prev n_steps alpha runs initial_cells pick).1 ≠ .ok () ∧
      (DiagramSimulator2D.simulate prev n_steps alpha runs initial_cells pick).2 = prev) ∧
    (∀ (prev : Cell3 → ℕ) (n_steps : ℤ) (alpha : ℚ) (runs : ℤ)
      (initial_cells : Option (Finset Cell3)) (pick : ℕ → ℕ → Finset Cell3 → Cell3),
      (n_steps ≤ 0 ∨ runs ≤ 0) →
      (DiagramSimulator3D.simulate prev n_steps alpha runs initial_cells pick).1 ≠ .ok () ∧
      (DiagramSimulator3D.simulate prev n_steps alpha runs initial_cells pick).2 = prev) ∧
    (∀ (prev : Cell3 → ℕ) (n_steps : ℤ) (alpha : ℚ) (runs : ℤ)
      (initial_cells : Option (Finset Cell3)) (pick : ℕ → ℕ → Finset Cell3 → Cell3),
      0 < n_steps → 0 < runs → alpha ≤ 0 →
      (DiagramSimulator3D.simulate prev n_steps alpha runs initial_cells pick).1 =
        .error msgAlpha ∧
      (DiagramSimulator3D.simulate prev n_steps alpha runs initial_cells pick).2 =
        (fun _ => 0)) := by
  refine ⟨?_, ?_, ?_⟩
  · intro prev n alpha runs ic pick hbad
    unfold DiagramSimulator2D.simulate
    by_cases hn : n ≤ 0
    · rw [if_pos hn]
      exact ⟨by simp, rfl⟩
    rw [if_neg hn]
    by_cases hr : runs ≤ 0
    · rw [if_pos hr]
      exact ⟨by simp, rfl⟩
    rw [if_neg hr]
    have ha : alpha ≤ 0 := by
      rcases hbad with h | h | h
      · exact absurd h hn
      · exact absurd h hr
      · exact h
    rw [if_pos ha]
    exact ⟨by simp, rfl⟩
  · intro prev n alpha runs ic pick hbad
    unfold DiagramSimulator3D.simulate
    by_cases hn : n ≤ 0
    · rw [if_pos hn]
      exact ⟨by simp, rfl⟩
    rw [if_neg hn]
    have hr : runs ≤ 0 := by
      rcases hbad with h | h
      · exact absurd h hn
      · exact h
    rw [if_pos hr]
    exact ⟨by simp, rfl⟩
  · intro prev n alpha runs ic pick hn hr ha
    unfold DiagramSimulator3D.simulate
    rw [if_neg (by omega), if_neg (by omega)]
    rcases (show ∃ k, runs.toNat = k + 1 from ⟨runs.toNat - 1, by omega⟩) with ⟨k, hk⟩
    rw [hk]
    have hsim : Diagram3D.simulate (Diagram3D.init ic) n alpha (pick 1) = .error msgAlpha := by
      unfold Diagram3D.simulate
      rw [if_neg (by omega), if_pos ha]
    simp only [DiagramSimulator3D.aggLoop]
    rw [hsim]
    exact ⟨rfl, rfl⟩

/-- C4 counterexample: the claim "validation happens before the FrequencyMap
is reset, so a call that fails validation leaves the previously accumulated
FrequencyMap unchanged" is false for the 3D aggregator with `alpha ≤ 0`:
with a prior map counting the origin once, `simulate(n_steps=1, alpha=-1,
runs=1)` raises the alpha error yet the post-call map no longer matches the
prior map. -/
theorem C4_counterexample :
    (DiagramSimulator3D.simulate prevC4 1 (-1) 1 none (fun _ => pickMin3)).1 =
      .error msgAlpha ∧
    (DiagramSimulator3D.simulate prevC4 1 (-1) 1 none (fun _ => pickMin3)).2 (0, 0, 0) = 0 ∧
    prevC4 (0, 0, 0) = 1 :=
  ⟨rfl, rfl, rfl⟩

theorem C4_witness :
    ((DiagramSimulator2D.simulate (fun _ => 5) 0 1 1 none (fun _ => pickMin2)).1 ≠ .ok () ∧
      (DiagramSimulator2D.simulate (fun _ => 5) 0 1 1 none (fun _ => pickMin2)).2 =
        (fun _ => 5)) ∧
    ((DiagramSimulator3D.simulate prevC4 1 (-1) 1 none (fun _ => pickMin3)).1 =
        .error msgAlpha ∧
      (DiagramSimulator3D.simulate prevC4 1 (-1) 1 none (fun _ => pickMin3)).2 =
        (fun _ => 0)) :=
  ⟨C4_validation_and_reset_order.1 (fun _ => 5) 0 1 1 none (fun _ => pickMin2)
      (Or.inl (by decide)),
    C4_validation_and_reset_order.2.2 prevC4 1 (-1) 1 none (fun _ => pickMin3)
      (by decide) (by decide) (by decide)⟩

/-- C5: for every nonempty downward-closed cell set in d ∈ {2,3}, the
optimized `get_addable_cells()` (scanning only forward neighbours of the
boundary) equals the definitional addable set of the spec, and its result
never intersects `cells`. -/
theorem C5_addable_refines_spec :
    (∀ (S : Finset Cell2), S.Nonempty → Diagram2D.DownClosed S →
      ∀ c, c ∈ Diagram2D.get_addable_cells S ↔ Diagram2D.addableSpec S c) ∧
    (∀ (S : Finset Cell3), S.Nonempty → Diagram3D.DownClosed S →
      ∀ c, c ∈ Diagram3D.get_addable_cells S ↔ Diagram3D.addableSpec S c) ∧
    (∀ (S : Finset Cell2) (c : Cell2), c ∈ Diagram2D.get_addable_cells S → c ∉ S) ∧
    (∀ (S : Finset Cell3) (c : Cell3), c ∈ Diagram3D.get_addable_cells S → c ∉ S) :=
  ⟨fun S hne hdc => Diagram2D.addable_eq_spec hne hdc,
    fun S hne hdc => Diagram3D.addable_eq_spec3 hne hdc,
    fun S c h => Diagram2D.addable_disjoint h,
    fun S c h => Diagram3D.addable_disjoint3 h⟩

theorem C5_witness :
    (1, 0) ∈ Diagram2D.get_addable_cells {((0, 0) : Cell2)} ∧
    (1, 0) ∉ ({((0, 0) : Cell2)} : Finset Cell2) :=
  have hmem : (1, 0) ∈ Diagram2D.get_addable_cells {((0, 0) : Cell2)} :=
    (C5_addable_refines_spec.1 {(0, 0)} ⟨(0, 0), by decide⟩
      (Diagram2D.dec_imp_downClosed (by decide)) (1, 0)).mpr (by decide)
  ⟨hmem, C5_addable_refines_spec.2.2.1 {(0, 0)} (1, 0) hmem⟩

/-- C6: for fixed `alpha > 0` and non-negative integer coordinates,
`calculate_weight` is at least 1 in both dimensions (2D:
`((x+1)+(y+1))^alpha`, 3D: `((x+1)(y+1)(z+1))^alpha`) and strictly increasing
in each coordinate separately. -/
theorem C6_weight_bounds_and_monotone :
    ∀ (x y z : ℕ) (alpha : ℚ), 0 < alpha →
      (1 ≤ Diagram2D.calculate_weight (x, y) alpha ∧
        Diagram2D.calculate_weight (x, y) alpha <
          Diagram2D.calculate_weight (x + 1, y) alpha ∧
        Diagram2D.calculate_weight (x, y) alpha <
          Diagram2D.calculate_weight (x, y + 1) alpha) ∧
      (1 ≤ Diagram3D.calculate_weight (x, y, z) alpha ∧
        Diagram3D.calculate_weight (x, y, z) alpha <
          Diagram3D.calculate_weight (x + 1, y, z) alpha ∧
        Diagram3D.calculate_weight (x, y, z) alpha <
          Diagram3D.calculate_weight (x, y + 1, z) alpha ∧
        Diagram3D.calculate_weight (x, y, z) alpha <
          Diagram3D.calculate_weight (x, y, z + 1) alpha) := by
  intro x y z alpha hq
  have hα : (0 : ℝ) < (alpha : ℝ) := by exact_mod_cast hq
  have hx0 : (0 : ℝ) ≤ (x : ℝ) := Nat.cast_nonneg x
  have hy0 : (0 : ℝ) ≤ (y : ℝ) := Nat.cast_nonneg y
  have hz0 : (0 : ℝ) ≤ (z : ℝ) := Nat.cast_nonneg z
  unfold Diagram2D.calculate_weight Diagram3D.calculate_weight
  simp only
  constructor
  · refine ⟨?_, ?_, ?_⟩
    · exact Real.one_le_rpow (by push_cast; linarith) (le_of_lt hα)
    · exact Real.rpow_lt_rpow (by positivity) (by push_cast; linarith) hα
    · exact Real.rpow_lt_rpow (by positivity) (by push_cast; linarith) hα
  · have hx1 : (1 : ℝ) ≤ (x : ℝ) + 1 := by linarith
    have hy1 : (1 : ℝ) ≤ (y : ℝ) + 1 := by linarith
    have hz1 : (1 : ℝ) ≤ (z : ℝ) + 1 := by linarith
    have h12 : (1 : ℝ) ≤ ((x : ℝ) + 1) * ((y : ℝ) + 1) := by nlinarith
    have h123 : (1 : ℝ) ≤ ((x : ℝ) + 1) * ((y : ℝ) + 1) * ((z : ℝ) + 1) := by nlinarith
    have hxy : (0 : ℝ) < ((x : ℝ) + 1) * ((y : ℝ) + 1) := by positivity
    have hxz : (0 : ℝ) < ((x : ℝ) + 1) * ((z : ℝ) + 1) := by positivity
    have hyz : (0 : ℝ) < ((y : ℝ) + 1) * ((z : ℝ) + 1) := by positivity
    refine ⟨?_, ?_, ?_, ?_⟩
    · exact Real.one_le_rpow h123 (le_of_lt hα)
    · exact Real.rpow_lt_rpow (by positivity) (by push_cast; nlinarith [hyz]) hα
    · exact Real.rpow_lt_rpow (by positivity) (by push_cast; nlinarith [hxz]) hα
    · exact Real.rpow_lt_rpow (by positivity) (by push_cast; nlinarith [hxy]) hα

theorem C6_witness :
    1 ≤ Diagram2D.calculate_weight (0, 0) 1 ∧ 1 ≤ Diagram3D.calculate_weight (0, 0, 0) 1 :=
  ⟨(C6_weight_bounds_and_monotone 0 0 0 1 (by norm_num)).1.1,
    (C6_weight_bounds_and_monotone 0 0 0 1 (by norm_num)).2.1⟩

/-- C7: `compute_limit_shape` fails on an empty map; with no override the
scaling factor resolves to `sqrt(max extent)` in 2D and `cbrt(max extent)` in
3D (extent = max coordinate sum) and a positive resolution is returned; an
explicit override replaces the default; a non-positive resolved factor fails,
in particular for the map containing only the origin. -/
theorem C7_limit_shape_validation :
    (∀ o, LimitShape.compute_limit_shape2 ∅ o = .error LimitShape.msgEmpty) ∧
    (∀ o, LimitShape.compute_limit_shape3 ∅ o = .error LimitShape.msgEmpty) ∧
    (∀ keys : Finset Cell2, keys ≠ ∅ → 0 < LimitShape.maxExtent2 keys →
      LimitShape.compute_limit_shape2 keys none =
        .ok (Real.sqrt (LimitShape.maxExtent2 keys))) ∧
    (∀ keys : Finset Cell3, keys ≠ ∅ → 0 < LimitShape.maxExtent3 keys →
      LimitShape.compute_limit_shape3 keys none =
        .ok ((LimitShape.maxExtent3 keys : ℝ) ^ ((1 : ℝ) / 3))) ∧
    (∀ (keys : Finset Cell2) (s : ℝ), keys ≠ ∅ → 0 < s →
      LimitShape.compute_limit_shape2 keys (some s) = .ok s) ∧
    (∀ (keys : Finset Cell2) (s : ℝ), keys ≠ ∅ → s ≤ 0 →
      LimitShape.compute_limit_shape2 keys (some s) = .error LimitShape.msgFactor) ∧
    (∀ (keys : Finset Cell3) (s : ℝ), keys ≠ ∅ → 0 < s →
      LimitShape.compute_limit_shape3 keys (some s) = .ok s) ∧
    (∀ (keys : Finset Cell3) (s : ℝ), keys ≠ ∅ → s ≤ 0 →
      LimitShape.compute_limit_shape3 keys (some s) = .error LimitShape.msgFactor) ∧
    LimitShape.compute_limit_shape2 {((0, 0) : Cell2)} none = .error LimitShape.msgFactor ∧
    LimitShape.compute_limit_shape3 {((0, 0, 0) : Cell3)} none =
      .error LimitShape.msgFactor := by
  refine ⟨?_, ?_, ?_, ?_, ?_, ?_, ?_, ?_, ?_, ?_⟩
  · intro o
    unfold LimitShape.compute_limit_shape2
    rw [if_pos rfl]
  · intro o
    unfold LimitShape.compute_limit_shape3
    rw [if_pos rfl]
  · intro keys hne hpos
    unfold LimitShape.compute_limit_shape2
    rw [if_neg hne]
    have hres : LimitShape.resolvedFactor2 keys none =
        Real.sqrt (LimitShape.maxExtent2 keys) := rfl
    rw [hres, if_neg (not_le.mpr (Real.sqrt_pos.mpr (by exact_mod_cast hpos)))]
  · intro keys hne hpos
    unfold LimitShape.compute_limit_shape3
    rw [if_neg hne]
    have hres : LimitShape.resolvedFactor3 keys none =
        (LimitShape.maxExtent3 keys : ℝ) ^ ((1 : ℝ) / 3) := rfl
    rw [hres,
      if_neg (not_le.mpr (Real.rpow_pos_of_pos (by exact_mod_cast hpos) ((1 : ℝ) / 3)))]
  · intro keys s hne hs
    unfold LimitShape.compute_limit_shape2
    rw [if_neg hne]
    have hres : LimitShape.resolvedFactor2 keys (some s) = s := rfl
    rw [hres, if_neg (not_le.mpr hs)]
  · intro keys s hne hs
    unfold LimitShape.compute_limit_shape2
    rw [if_neg hne]
    have hres : LimitShape.resolvedFactor2 keys (some s) = s := rfl
    rw [hres, if_pos hs]
  · intro keys s hne hs
    unfold LimitShape.compute_limit_shape3
    rw [if_neg hne]
    have hres : LimitShape.resolvedFactor3 keys (some s) = s := rfl
    rw [hres, if_neg (not_le.mpr hs)]
  · intro keys s hne hs
    unfold LimitShape.compute_limit_shape3
    rw [if_neg hne]
    have hres : LimitShape.resolvedFactor3 keys (some s) = s := rfl
    rw [hres, if_pos hs]
  · unfold LimitShape.compute_limit_shape2
    rw [if_neg (by decide)]
    have h0 : LimitShape.maxExtent2 {((0, 0) : Cell2)} = 0 := by decide
    have hres : LimitShape.resolvedFactor2 {((0, 0) : Cell2)} none = 0 := by
      show Real.sqrt ((LimitShape.maxExtent2 {((0, 0) : Cell2)} : ℕ) : ℝ) = 0
      rw [h0]
      simp
    rw [hres, if_pos le_rfl]
  · unfold LimitShape.compute_limit_shape3
    rw [if_neg (by decide)]
    have h0 : LimitShape.maxExtent3 {((0, 0, 0) : Cell3)} = 0 := by decide
    have hres : LimitShape.resolvedFactor3 {((0, 0, 0) : Cell3)} none = 0 := by
      show ((LimitShape.maxExtent3 {((0, 0, 0) : Cell3)} : ℕ) : ℝ) ^ ((1 : ℝ) / 3) = 0
      rw [h0]
      simp
    rw [hres, if_pos le_rfl]

theorem C7_witness :
    LimitShape.compute_limit_shape2 ∅ none = .error LimitShape.msgEmpty ∧
    LimitShape.compute_limit_shape2 {((1, 0) : Cell2)} none =
      .ok (Real.sqrt (LimitShape.maxExtent2 {((1, 0) : Cell2)})) ∧
    LimitShape.compute_limit_shape2 {((0, 0) : Cell2)} (some 2) = .ok 2 :=
  ⟨C7_limit_shape_validation.1 none,
    C7_limit_shape_validation.2.2.1 {(1, 0)} (by decide) (by decide),
    C7_limit_shape_validation.2.2.2.2.1 {(0, 0)} 2 (by decide) (by norm_num)⟩

/-- C8: snapshot round-trip — saving the frequency map and loading it back
reproduces exactly the same cell-to-count entries, in both dimensions. -/
theorem C8_snapshot_roundtrip :
    (∀ entries : List (Cell2 × ℕ),
      DiagramSimulator2D.load_state (DiagramSimulator2D.save_state entries) =
        some entries) ∧
    (∀ entries : List (Cell3 × ℕ),
      DiagramSimulator3D.load_state (DiagramSimulator3D.save_state entries) =
        some entries) :=
  ⟨load_save_2, load_save_3⟩

/-- C9: for every finite nonempty downward-closed cell set in d ∈ {2,3},
`get_addable_cells()` is nonempty; consequently, under the order-ideal
invariant, the fatal branch of `Diagram2D.simulate` and the early-stop branch
of `Diagram3D.simulate` are unreachable (the 2D engine succeeds and the 3D
engine performs all its steps). -/
theorem C9_no_exhaustion_under_invariant :
    (∀ S : Finset Cell2, S.Nonempty → Diagram2D.DownClosed S →
      (Diagram2D.get_addable_cells S).Nonempty) ∧
    (∀ S : Finset Cell3, S.Nonempty → Diagram3D.DownClosed S →
      (Diagram3D.get_addable_cells S).Nonempty) ∧
    (∀ (pick : ℕ → Finset Cell2 → Cell2) (S : Finset Cell2) (n_steps : ℤ) (alpha : ℚ),
      Diagram2D.ValidPick pick → S.Nonempty → Diagram2D.DownClosed S → 0 < n_steps →
      ∃ T, Diagram2D.simulate S n_steps alpha pick = .ok T) ∧
    (∀ (pick : ℕ → Finset Cell3 → Cell3) (S : Finset Cell3) (n_steps : ℤ) (alpha : ℚ),
      Diagram3D.ValidPick pick → S.Nonempty → Diagram3D.DownClosed S → 0 < n_steps →
      0 < alpha → ∃ T, Diagram3D.simulate S n_steps alpha pick = .ok T ∧
        T.card = S.card + n_steps.toNat) := by
  refine ⟨fun S hne hdc => Diagram2D.addable_nonempty hne hdc,
    fun S hne hdc => Diagram3D.addable_nonempty3 hne hdc, ?_, ?_⟩
  · intro pick S n alpha hp hne hdc hn
    unfold Diagram2D.simulate
    rw [if_neg (by omega)]
    exact Diagram2D.simLoop_ok_of_inv hp n.toNat 0 S hne hdc
  · intro pick S n alpha hp hne hdc hn ha
    refine ⟨Diagram3D.simLoop pick 0 n.toNat S, ?_, ?_⟩
    · unfold Diagram3D.simulate
      rw [if_neg (by omega), if_neg (not_le.mpr ha)]
    · exact Diagram3D.simLoop_card_exact hp n.toNat 0 S hne hdc

theorem C9_witness :
    ∃ T, Diagram2D.simulate {((0, 0) : Cell2)} 1 1 pickMin2 = .ok T :=
  C9_no_exhaustion_under_invariant.2.2.1 pickMin2 {(0, 0)} 1 1 pickMin2_valid
    ⟨(0, 0), by decide⟩ (Diagram2D.dec_imp_downClosed (by decide)) (by decide)

/-- C10: a successful `Diagram2D.simulate(n_steps, alpha)` grows `size()` by
exactly `n_steps` (each step adds one fresh cell); `Diagram3D.simulate` grows
it by at most `n_steps`, with equality unless the loop stopped on an empty
addable set (in which case the final state is exhausted). -/
theorem C10_size_growth :
    (∀ (pick : ℕ → Finset Cell2 → Cell2) (S T : Finset Cell2) (n_steps : ℤ) (alpha : ℚ),
      Diagram2D.ValidPick pick → Diagram2D.simulate S n_steps alpha pick = .ok T →
      T.card = S.card + n_steps.toNat) ∧
    (∀ (pick : ℕ → Finset Cell3 → Cell3) (S T : Finset Cell3) (n_steps : ℤ) (alpha : ℚ),
      Diagram3D.ValidPick pick → Diagram3D.simulate S n_steps alpha pick = .ok T →
      T.card ≤ S.card + n_steps.toNat ∧
        (T.card = S.card + n_steps.toNat ∨ Diagram3D.get_addable_cells T = ∅)) := by
  constructor
  · intro pick S T n alpha hp h
    unfold Diagram2D.simulate at h
    by_cases hn : n ≤ 0
    · rw [if_pos hn] at h
      exact absurd h (by simp)
    · rw [if_neg hn] at h
      exact Diagram2D.simLoop_ok_card hp _ _ _ _ h
  · intro pick S T n alpha hp h
    unfold Diagram3D.simulate at h
    by_cases hn : n ≤ 0
    · rw [if_pos hn] at h
      exact absurd h (by simp)
    rw [if_neg hn] at h
    by_cases ha : alpha ≤ 0
    · rw [if_pos ha] at h
      exact absurd h (by simp)
    rw [if_neg ha] at h
    have hT : T = Diagram3D.simLoop pick 0 n.toNat S := by
      injection h with h2
      exact h2.symm
    rw [hT]
    exact Diagram3D.simLoop_card hp n.toNat 0 S

theorem C10_witness :
    ({((0, 1) : Cell2), (0, 0)} : Finset Cell2).card =
      ({((0, 0) : Cell2)} : Finset Cell2).card + (1 : ℤ).toNat ∧
    (({((0, 0, 1) : Cell3), (0, 0, 0)} : Finset Cell3).card ≤
        ({((0, 0, 0) : Cell3)} : Finset Cell3).card + (1 : ℤ).toNat ∧
      (({((0, 0, 1) : Cell3), (0, 0, 0)} : Finset Cell3).card =
          ({((0, 0, 0) : Cell3)} : Finset Cell3).card + (1 : ℤ).toNat ∨
        Diagram3D.get_addable_cells {((0, 0, 1) : Cell3), (0, 0, 0)} = ∅)) :=
  ⟨C10_size_growth.1 pickMin2 {(0, 0)} {(0, 1), (0, 0)} 1 1 pickMin2_valid rfl,
    C10_size_growth.2 pickMin3 {(0, 0, 0)} {(0, 0, 1), (0, 0, 0)} 1 1 pickMin3_valid rfl⟩
